import Mathlib

/-!
Shallow embedding of `bevy_serial` (`src/lib.rs`): the label/token table built
by `SerialPlugin::build`, the per-port read drain loop of `read_serial`, and
the per-request write loop of `write_serial`.

Device I/O is modelled by response scripts: each OS `read`/`write` call
consumes the next scripted response, so a script entry stands for the value
the OS call returns.  `eprintln!` logging has no observable effect on the
state and is not modelled.  The `loop`s in the source are unbounded; here
they take a fuel parameter and return `none` when the fuel (or the finite
device script) is exhausted, so `= none` for every fuel models
non-termination of the corresponding source loop.
-/

/-- Number of data bits per character (`mio_serial::DataBits`); pure
configuration, no logic in the crate depends on it. -/
inductive DataBits where
  | five
  | six
  | seven
  | eight
  deriving DecidableEq

/-- Flow control setting (`mio_serial::FlowControl`); pure configuration. -/
inductive FlowControl where
  | none
  | software
  | hardware
  deriving DecidableEq

/-- Parity setting (`mio_serial::Parity`); pure configuration. -/
inductive Parity where
  | none
  | odd
  | even
  deriving DecidableEq

/-- Stop bits setting (`mio_serial::StopBits`); pure configuration. -/
inductive StopBits where
  | one
  | two
  deriving DecidableEq

/-- Settings for users to initialize the plugin (`SerialSetting` in the
source).  `timeout` is a duration in some fixed unit. -/
structure SerialSetting where
  label : Option String
  port_name : String
  baud_rate : Nat
  data_bits : DataBits
  flow_control : FlowControl
  parity : Parity
  stop_bits : StopBits
  timeout : Nat
  deriving DecidableEq

/-- Serial struct used internally (`SerialStreamLabeled` in the source).
The `stream` field (the OS handle) carries no state visible to this model;
device behaviour is supplied to the loops as a response script instead. -/
structure SerialStreamLabeled where
  label : String
  connected : Bool
  deriving DecidableEq

/-- Result of one OS `read` call into the unfilled tail of the buffer.
`ok chunk` is `Ok(n)` where `chunk` is the bytes the device delivered
(`n = chunk.length`; `n = 0` is end-of-stream).  `err` is any error kind
other than `WouldBlock`/`Interrupted` (the code's "other errors" arm). -/
inductive ReadResult where
  | ok (chunk : List Nat)
  | wouldBlock
  | interrupted
  | err
  deriving DecidableEq

/-- Result of one OS `write` call on the remaining suffix of the payload.
`ok n` is `Ok(n)`: the device accepted the first `n` bytes of the slice it
was passed.  `err` is any error kind other than `WouldBlock`/`Interrupted`. -/
inductive WriteResult where
  | ok (n : Nat)
  | wouldBlock
  | interrupted
  | err
  deriving DecidableEq

/-- The size of the read buffer for one read system call
(`DEFAULT_READ_BUFFER_LEN` in the source). -/
def DEFAULT_READ_BUFFER_LEN : Nat := 2048

/-- Effect on the buffer of `serial.stream.read(&mut buffer[bytes_read..])`
returning `Ok(chunk.length)`: the chunk is written into the slice starting at
`bytes_read`, the rest of the vector is unchanged. -/
def writeChunk (buffer : List Nat) (bytesRead : Nat) (chunk : List Nat) : List Nat :=
  buffer.take bytesRead ++ chunk ++ buffer.drop (bytesRead + chunk.length)

/-- The growth step `buffer.resize(buffer.len() + DEFAULT_READ_BUFFER_LEN, 0)`
guarded by `bytes_read == buffer.len()` in `read_serial`. -/
def growIfFull (buffer : List Nat) (bytesRead : Nat) : List Nat :=
  if bytesRead = buffer.length then buffer ++ List.replicate DEFAULT_READ_BUFFER_LEN 0
  else buffer

/-- The drain `loop` of `read_serial` for one readable token.  `connected` is
the port's flag (nothing inside this loop besides the `Ok(0)` arm writes it,
and no other actor runs during the loop in this sequential model).  Returns
`(records sent, connected flag after the loop, unconsumed device script)`,
or `none` when fuel or script is exhausted (modelling non-termination).
Mirrors the source arms: `Ok(0)` logs, clears `connected` and breaks with no
record; `Ok(n)` appends and grows the buffer when its tail became full;
`WouldBlock` sends one `SerialReadEvent` holding the accumulated prefix and
breaks; `Interrupted` and other errors log and continue; when `connected` is
false the code only logs and the `loop` runs again. -/
def readLoop : Nat → Bool → List ReadResult → List Nat → Nat →
    Option (List (List Nat) × Bool × List ReadResult)
  | 0, _, _, _, _ => none
  | fuel + 1, connected, script, buffer, bytesRead =>
    match connected, script with
    | true, [] => none
    | true, ReadResult.ok chunk :: rest =>
      match chunk with
      | [] => some ([], false, rest)
      | _ :: _ =>
        readLoop fuel true rest
          (growIfFull (writeChunk buffer bytesRead chunk) (bytesRead + chunk.length))
          (bytesRead + chunk.length)
    | true, ReadResult.wouldBlock :: rest => some ([buffer.take bytesRead], true, rest)
    | true, ReadResult.interrupted :: rest => readLoop fuel true rest buffer bytesRead
    | true, ReadResult.err :: rest => readLoop fuel true rest buffer bytesRead
    | false, s => readLoop fuel false s buffer bytesRead

/-- One drain cycle for one readable token, started the way `read_serial`
starts it: `buffer = vec![0; DEFAULT_READ_BUFFER_LEN]`, `bytes_read = 0`. -/
def readCycle (fuel : Nat) (connected : Bool) (script : List ReadResult) :
    Option (List (List Nat) × Bool × List ReadResult) :=
  readLoop fuel connected script (List.replicate DEFAULT_READ_BUFFER_LEN 0) 0

/-- The write `loop` of `write_serial` for one request.  Returns
`(bytes the device received in order, connected flag after the loop,
unconsumed device script)`, or `none` when fuel or script runs out
(modelling non-termination).  Mirrors the source arms: `Ok(n)` with
`n < buffer.len()` logs a partial-write anomaly and advances `bytes_wrote`
by `n`; any other `Ok` advances it by `buffer.len()`; `WouldBlock`,
`Interrupted` and other errors make no progress; when `connected` is false
the code only logs and makes no write call; after every arm the loop breaks
exactly when `bytes_wrote == buffer.len()`. -/
def writeLoop : Nat → Bool → List WriteResult → List Nat → Nat → List Nat →
    Option (List Nat × Bool × List WriteResult)
  | 0, _, _, _, _, _ => none
  | fuel + 1, connected, script, payload, bytesWrote, delivered =>
    match connected, script with
    | true, [] => none
    | true, WriteResult.ok n :: rest =>
      let sent := (payload.drop bytesWrote).take n
      let bytesWrote1 :=
        if n < payload.length then bytesWrote + n else bytesWrote + payload.length
      if bytesWrote1 = payload.length then some (delivered ++ sent, true, rest)
      else writeLoop fuel true rest payload bytesWrote1 (delivered ++ sent)
    | true, WriteResult.wouldBlock :: rest =>
      if bytesWrote = payload.length then some (delivered, true, rest)
      else writeLoop fuel true rest payload bytesWrote delivered
    | true, WriteResult.interrupted :: rest =>
      if bytesWrote = payload.length then some (delivered, true, rest)
      else writeLoop fuel true rest payload bytesWrote delivered
    | true, WriteResult.err :: rest =>
      if bytesWrote = payload.length then some (delivered, true, rest)
      else writeLoop fuel true rest payload bytesWrote delivered
    | false, s =>
      if bytesWrote = payload.length then some (delivered, false, s)
      else writeLoop fuel false s payload bytesWrote delivered

/-- Well-formedness of a read-device script w.r.t. the free tail capacity:
an OS `read` never returns more bytes than the slice it was handed
(`free = buffer.len() - bytes_read`).  Tracks the capacity evolution of the
drain loop, including the growth by `DEFAULT_READ_BUFFER_LEN` when a chunk
fills the buffer exactly. -/
def scriptFits : List ReadResult → Nat → Bool
  | [], _ => true
  | ReadResult.ok chunk :: rest, free =>
    decide (chunk.length ≤ free) &&
      scriptFits rest (if chunk.length = free then DEFAULT_READ_BUFFER_LEN else free - chunk.length)
  | ReadResult.wouldBlock :: rest, free => scriptFits rest free
  | ReadResult.interrupted :: rest, free => scriptFits rest free
  | ReadResult.err :: rest, free => scriptFits rest free

/-- A drain-cycle body with neither an end-of-stream response nor a
would-block response: only data chunks, interruptions and soft errors. -/
def cleanBody : List ReadResult → Bool
  | [] => true
  | ReadResult.ok chunk :: rest => !chunk.isEmpty && cleanBody rest
  | ReadResult.wouldBlock :: _ => false
  | ReadResult.interrupted :: rest => cleanBody rest
  | ReadResult.err :: rest => cleanBody rest

/-- The data chunks of a read-device script, in order. -/
def okChunks : List ReadResult → List (List Nat)
  | [] => []
  | ReadResult.ok chunk :: rest => chunk :: okChunks rest
  | ReadResult.wouldBlock :: rest => okChunks rest
  | ReadResult.interrupted :: rest => okChunks rest
  | ReadResult.err :: rest => okChunks rest

/-- Well-formedness of a write-device script w.r.t. the remaining payload
suffix: an OS `write` never reports more bytes accepted than the length of
the slice it was handed (`remaining = buffer.len() - bytes_wrote`). -/
def writeScriptFits : List WriteResult → Nat → Bool
  | [], _ => true
  | WriteResult.ok n :: rest, remaining =>
    decide (n ≤ remaining) && writeScriptFits rest (remaining - n)
  | WriteResult.wouldBlock :: rest, remaining => writeScriptFits rest remaining
  | WriteResult.interrupted :: rest, remaining => writeScriptFits rest remaining
  | WriteResult.err :: rest, remaining => writeScriptFits rest remaining

/-- Insertion into the label table, with `HashMap::insert` semantics: a new
binding replaces any existing binding of the same key. -/
def mapInsert (m : List (String × Nat)) (k : String) (v : Nat) : List (String × Nat) :=
  m.filter (fun p => decide (p.1 ≠ k)) ++ [(k, v)]

/-- Lookup in the label table (`indices.0.get(label)`). -/
def mapGet (m : List (String × Nat)) (k : String) : Option Nat :=
  (m.find? (fun p => decide (p.1 = k))).map Prod.snd

/-- Nickname selection in `SerialPlugin::build`: the explicit label if set,
otherwise the port name. -/
def effectiveLabel (s : SerialSetting) : String :=
  match s.label with
  | some label => label
  | none => s.port_name

/-- The `indices.0.insert(label.clone(), i)` calls of the `build` loop,
with `i` the running enumeration index. -/
def buildIndicesFrom : List SerialSetting → Nat → List (String × Nat) → List (String × Nat)
  | [], _, acc => acc
  | s :: rest, i, acc => buildIndicesFrom rest (i + 1) (mapInsert acc (effectiveLabel s) i)

/-- Outcome of `SerialPlugin::build`: the poll tokens registered (one
`Token(i)` per enumerated setting), the label table `Indices`, and the
`SERIALS` vector. -/
structure BuiltPlugin where
  tokens : List Nat
  indices : List (String × Nat)
  serials : List SerialStreamLabeled

/-- The `build` loop of `SerialPlugin`: for each `(i, setting)` in
`enumerate`, register `Token(i)`, insert the effective label with value `i`,
and push a `SerialStreamLabeled` with `connected: true`.  (Opening the OS
stream either succeeds or panics aborting the whole build, so every stored
port starts connected.) -/
def SerialPlugin.build (settings : List SerialSetting) : BuiltPlugin :=
  ⟨settings.enum.map (fun p => p.1),
    buildIndicesFrom settings 0 [],
    settings.map (fun s => ⟨effectiveLabel s, true⟩)⟩

/-- Index of the last setting whose effective label is `l`, counting from
base index `i`: specification-side description of what the overwriting
inserts of `buildIndicesFrom` leave in the table. -/
def lastLabelIndex (l : String) : List SerialSetting → Nat → Option Nat
  | [], _ => none
  | s :: rest, i =>
    match lastLabelIndex l rest (i + 1) with
    | some v => some v
    | none => if effectiveLabel s = l then some i else none

/-- Outcome of one whole `read_serial` run: the `SerialReadEvent`s sent, or a
panic (`.expect` on an out-of-range token), or fuel/script exhaustion inside
some drain loop (`hung`, modelling a non-terminating tick). -/
inductive ReadPassOut where
  | completed (events : List (String × List Nat))
  | panicked (events : List (String × List Nat))
  | hung (events : List (String × List Nat))
  deriving DecidableEq

/-- Outcome of one whole `write_serial` run: per delivered request the pair
`(port index, bytes the device received)`, or a panic (unknown label or
out-of-range index), or fuel/script exhaustion inside some write loop. -/
inductive WritePassOut where
  | completed (ios : List (Nat × List Nat))
  | panicked (ios : List (Nat × List Nat))
  | hung (ios : List (Nat × List Nat))
  deriving DecidableEq

/-- The `for event in mio_ctx.events.iter()` body of `read_serial`: look the
token up in `SERIALS` (panicking when absent), run one drain cycle on that
port (every registered interest is `READABLE`, so `event.is_readable()`
holds), store the updated `connected` flag and collect the sent events. -/
def readPassGo (fuel : Nat) : List SerialStreamLabeled → List (List ReadResult) →
    List Nat → List (String × List Nat) → ReadPassOut
  | _, _, [], events => ReadPassOut.completed events
  | ports, scripts, t :: rest, events =>
    match ports.get? t with
    | none => ReadPassOut.panicked events
    | some port =>
      match readCycle fuel port.connected (scripts.getD t []) with
      | none => ReadPassOut.hung events
      | some (records, conn, leftover) =>
        readPassGo fuel (ports.set t ⟨port.label, conn⟩) (scripts.set t leftover) rest
          (events ++ records.map (fun r => (port.label, r)))

/-- The `read_serial` system: when the label table is empty nothing is done
(the poller is not even polled); otherwise each polled token is drained.
`polled` is the token list the `mio` poll returned for this tick. -/
def read_serial (fuel : Nat) (indices : List (String × Nat))
    (ports : List SerialStreamLabeled) (scripts : List (List ReadResult))
    (polled : List Nat) : ReadPassOut :=
  if indices.isEmpty then ReadPassOut.completed []
  else readPassGo fuel ports scripts polled []

/-- The `for SerialWriteEvent(label, buffer) in ev_write_serial.read()` body
of `write_serial`: resolve the label (panicking when unknown), fetch the port
(panicking when the index is out of range), and run the write loop to
completion. -/
def writePassGo (fuel : Nat) (indices : List (String × Nat)) :
    List SerialStreamLabeled → List (List WriteResult) →
    List (String × List Nat) → List (Nat × List Nat) → WritePassOut
  | _, _, [], ios => WritePassOut.completed ios
  | ports, scripts, (label, payload) :: rest, ios =>
    match mapGet indices label with
    | none => WritePassOut.panicked ios
    | some i =>
      match ports.get? i with
      | none => WritePassOut.panicked ios
      | some port =>
        match writeLoop fuel port.connected (scripts.getD i []) payload 0 [] with
        | none => WritePassOut.hung ios
        | some (delivered, _, leftover) =>
          writePassGo fuel indices ports (scripts.set i leftover) rest (ios ++ [(i, delivered)])

/-- The `write_serial` system: when the label table is empty every pending
request is skipped wholesale; otherwise requests are processed in order. -/
def write_serial (fuel : Nat) (indices : List (String × Nat))
    (ports : List SerialStreamLabeled) (scripts : List (List WriteResult))
    (requests : List (String × List Nat)) : WritePassOut :=
  if indices.isEmpty then WritePassOut.completed []
  else writePassGo fuel indices ports scripts requests []

/-- Two settings whose effective label collides ("a" for both ports). -/
def dupSettings : List SerialSetting :=
  [⟨some "a", "/dev/ttyUSB0", 115200, DataBits.eight, FlowControl.none, Parity.none,
      StopBits.one, 0⟩,
    ⟨some "a", "/dev/ttyUSB1", 115200, DataBits.eight, FlowControl.none, Parity.none,
      StopBits.one, 0⟩]

/-! ## Helper lemmas -/

theorem writeLoop_not_connected (fuel : Nat) (script : List WriteResult) (payload : List Nat)
    (bytesWrote : Nat) (delivered : List Nat) (h : bytesWrote ≠ payload.length) :
    writeLoop fuel false script payload bytesWrote delivered = none := by
  induction fuel with
  | zero => rfl
  | succ f ih => simp [writeLoop, h, ih]

theorem readLoop_not_connected (fuel : Nat) (script : List ReadResult) (buffer : List Nat)
    (bytesRead : Nat) : readLoop fuel false script buffer bytesRead = none := by
  induction fuel with
  | zero => rfl
  | succ f ih => simpa [readLoop] using ih

/-! ## Claim theorems -/

/-- C1: the claim says a write request against a closed port with a non-empty
payload is logged, dropped and the loop terminates.  In the source the
closed-port arm only logs; the `loop` then hits
`if bytes_wrote == buffer.len() { break } else { continue }` with
`bytes_wrote = 0 < buffer.len()` and spins forever, so the write loop never
terminates for any amount of fuel. -/
theorem write_loop_on_closed_port_never_terminates (fuel : Nat) (script : List WriteResult)
    (payload : List Nat) (h : payload ≠ []) :
    writeLoop fuel false script payload 0 [] = none :=
  writeLoop_not_connected fuel script payload 0 [] (by
    intro h0
    exact h (List.eq_nil_of_length_eq_zero h0.symm))

theorem write_loop_on_closed_port_never_terminates_witness :
    writeLoop 5 false [] [7] 0 [] = none :=
  write_loop_on_closed_port_never_terminates 5 [] [7] (by decide)

/-- C2: the claim says a ready token whose port is disconnected is logged and
skipped, with terminating handling.  In the source the disconnected arm only
logs and the drain `loop` has no exit on that path, so the handling of such
a token never terminates for any amount of fuel (it also never sends a
record and never calls `read` — the result is `none` for every device
script). -/
theorem read_cycle_on_closed_port_never_terminates (fuel : Nat) (script : List ReadResult) :
    readCycle fuel false script = none :=
  readLoop_not_connected fuel script (List.replicate DEFAULT_READ_BUFFER_LEN 0) 0

/-- C3 counterexample: a drain cycle that hits would-block with zero
accumulated bytes still sends a `SerialReadEvent` — carrying an empty byte
list — whereas the claim says no record is emitted in that case. -/
theorem read_wouldblock_zero_bytes_emits_record :
    readCycle 1 true [ReadResult.wouldBlock] = some ([[]], true, []) := rfl

/-- C3 amended: per drain cycle at most one record is sent; termination via
end-of-stream sends none, termination via would-block always sends exactly
one — the accumulated bytes, possibly the empty list. -/
theorem read_record_emission (fuel : Nat) (script : List ReadResult) (buffer : List Nat)
    (bytesRead : Nat) (records : List (List Nat)) (conn : Bool) (leftover : List ReadResult)
    (h : readLoop fuel true script buffer bytesRead = some (records, conn, leftover)) :
    (records = [] ∧ conn = false) ∨ (∃ r, records = [r] ∧ conn = true) := by
  induction fuel generalizing script buffer bytesRead with
  | zero => exact absurd h (by simp [readLoop])
  | succ f ih =>
    match script with
    | [] => simp [readLoop] at h
    | ReadResult.ok chunk :: rest =>
      match chunk with
      | [] =>
        simp [readLoop] at h
        exact Or.inl ⟨h.1, h.2.1⟩
      | c :: cs =>
        simp only [readLoop] at h
        exact ih _ _ _ h
    | ReadResult.wouldBlock :: rest =>
      simp [readLoop] at h
      exact Or.inr ⟨buffer.take bytesRead, h.1.symm, h.2.1⟩
    | ReadResult.interrupted :: rest =>
      simp only [readLoop] at h
      exact ih _ _ _ h
    | ReadResult.err :: rest =>
      simp only [readLoop] at h
      exact ih _ _ _ h

theorem read_record_emission_witness :
    (([] : List (List Nat)) = [] ∧ false = false) ∨
      (∃ r, ([] : List (List Nat)) = [r] ∧ false = true) :=
  read_record_emission 2 [ReadResult.ok [5], ReadResult.ok []] [0, 0, 0] 0 [] false []
    (by decide)

/-- C10: with an empty settings sequence the label table is empty, and both
systems return success immediately: the read pass ignores whatever the
poller would have returned and sends no events, and the write pass silently
discards every request — unknown labels included — performing no I/O. -/
theorem empty_table_passes_noop (fuel : Nat) (ports : List SerialStreamLabeled)
    (rs : List (List ReadResult)) (ws : List (List WriteResult))
    (polled : List Nat) (requests : List (String × List Nat)) :
    read_serial fuel (SerialPlugin.build []).indices ports rs polled
        = ReadPassOut.completed []
      ∧ write_serial fuel (SerialPlugin.build []).indices ports ws requests
        = WritePassOut.completed [] :=
  ⟨rfl, rfl⟩

theorem writeLoop_fits (fuel : Nat) : ∀ (script : List WriteResult) (payload : List Nat)
    (bytesWrote : Nat) (out : List Nat × Bool × List WriteResult),
    writeScriptFits script (payload.length - bytesWrote) = true →
    bytesWrote ≤ payload.length →
    writeLoop fuel true script payload bytesWrote (payload.take bytesWrote) = some out →
    out.1 = payload ∧ out.2.1 = true := by
  induction fuel with
  | zero =>
    intro script payload bw out hfits hle h
    exact absurd h (by simp [writeLoop])
  | succ f ih =>
    intro script payload bw out hfits hle h
    match script with
    | [] => simp [writeLoop] at h
    | WriteResult.ok n :: rest =>
      simp only [writeScriptFits, Bool.and_eq_true, decide_eq_true_eq] at hfits
      obtain ⟨hn, hrest⟩ := hfits
      simp only [writeLoop] at h
      have hban : (if n < payload.length then bw + n else bw + payload.length) = bw + n := by
        split
        · rfl
        · omega
      rw [hban, ← List.take_add] at h
      by_cases hlen : bw + n = payload.length
      · rw [if_pos hlen] at h
        obtain rfl := Option.some.injEq _ _ ▸ h
        refine ⟨?_, rfl⟩
        show payload.take (bw + n) = payload
        rw [hlen, List.take_length]
      · rw [if_neg hlen] at h
        refine ih rest payload (bw + n) out ?_ (by omega) h
        rwa [Nat.sub_sub] at hrest
    | WriteResult.wouldBlock :: rest =>
      simp only [writeScriptFits] at hfits
      simp only [writeLoop] at h
      by_cases hlen : bw = payload.length
      · rw [if_pos hlen] at h
        obtain rfl := Option.some.injEq _ _ ▸ h
        refine ⟨?_, rfl⟩
        show payload.take bw = payload
        rw [hlen, List.take_length]
      · rw [if_neg hlen] at h
        exact ih rest payload bw out hfits hle h
    | WriteResult.interrupted :: rest =>
      simp only [writeScriptFits] at hfits
      simp only [writeLoop] at h
      by_cases hlen : bw = payload.length
      · rw [if_pos hlen] at h
        obtain rfl := Option.some.injEq _ _ ▸ h
        refine ⟨?_, rfl⟩
        show payload.take bw = payload
        rw [hlen, List.take_length]
      · rw [if_neg hlen] at h
        exact ih rest payload bw out hfits hle h
    | WriteResult.err :: rest =>
      simp only [writeScriptFits] at hfits
      simp only [writeLoop] at h
      by_cases hlen : bw = payload.length
      · rw [if_pos hlen] at h
        obtain rfl := Option.some.injEq _ _ ▸ h
        refine ⟨?_, rfl⟩
        show payload.take bw = payload
        rw [hlen, List.take_length]
      · rw [if_neg hlen] at h
        exact ih rest payload bw out hfits hle h

/-- C5: for every payload and any well-formed interleaving of full accepts,
partial accepts, would-block, interruptions and soft errors (well-formed: an
OS write never reports more bytes accepted than the slice it was handed),
whenever the write loop terminates, the bytes the device received are exactly
the requested payload, in order, with nothing omitted or repeated. -/
theorem write_completeness (fuel : Nat) (script : List WriteResult) (payload : List Nat)
    (delivered : List Nat) (conn : Bool) (leftover : List WriteResult)
    (hfits : writeScriptFits script payload.length = true)
    (h : writeLoop fuel true script payload 0 [] = some (delivered, conn, leftover)) :
    delivered = payload :=
  (writeLoop_fits fuel script payload 0 (delivered, conn, leftover) hfits (Nat.zero_le _) h).1

theorem write_completeness_witness : ([1, 2, 3, 4, 5] : List Nat) = [1, 2, 3, 4, 5] :=
  write_completeness 9
    [WriteResult.ok 2, WriteResult.wouldBlock, WriteResult.ok 2,
      WriteResult.interrupted, WriteResult.ok 1]
    [1, 2, 3, 4, 5] [1, 2, 3, 4, 5] true [] (by decide) (by decide)

/-- C4 amended: resolving an unregistered label does perform no I/O, but the
failure is a `panic!`, fatal to the whole write pass: the pass aborts at the
offending request, all later pending requests are abandoned unprocessed, and
nothing is delivered to any device for the offending request (Port state is
untouched, as `write_serial` never writes any `connected` flag). -/
theorem unknown_label_panics_pass (fuel : Nat) (indices : List (String × Nat))
    (ports : List SerialStreamLabeled) (scripts : List (List WriteResult))
    (label : String) (payload : List Nat) (rest : List (String × List Nat))
    (hne : indices.isEmpty = false) (hlabel : mapGet indices label = none) :
    write_serial fuel indices ports scripts ((label, payload) :: rest)
      = WritePassOut.panicked [] := by
  simp [write_serial, hne, writePassGo, hlabel]

theorem unknown_label_panics_pass_witness :
    write_serial 1 [("a", 0)] [] [] [("b", [1])] = WritePassOut.panicked [] :=
  unknown_label_panics_pass 1 [("a", 0)] [] [] "b" [1] [] (by decide) (by decide)

/-- C4 counterexample: the same valid request `("a", [7])` completes and
delivers `[7]` to port 0 when it is alone, but when preceded by a request
with the unregistered label "zzz" the whole pass panics with no I/O at all —
the unknown label is fatal to the pump and to the other request, not only to
the offending request as the claim states. -/
theorem unknown_label_aborts_whole_pass :
    write_serial 4 [("a", 0)] [⟨"a", true⟩] [[WriteResult.ok 1]] [("zzz", [7]), ("a", [7])]
        = WritePassOut.panicked []
      ∧ write_serial 4 [("a", 0)] [⟨"a", true⟩] [[WriteResult.ok 1]] [("a", [7])]
        = WritePassOut.completed [(0, [7])] :=
  ⟨by decide, by decide⟩

theorem length_writeChunk (buffer chunk : List Nat) (bytesRead : Nat)
    (h : bytesRead + chunk.length ≤ buffer.length) :
    (writeChunk buffer bytesRead chunk).length = buffer.length := by
  simp only [writeChunk, List.length_append, List.length_take, List.length_drop]
  omega

theorem take_writeChunk_grow (buffer chunk : List Nat) (bytesRead : Nat)
    (h1 : bytesRead ≤ buffer.length) (_h2 : bytesRead + chunk.length ≤ buffer.length) :
    (growIfFull (writeChunk buffer bytesRead chunk) (bytesRead + chunk.length)).take
        (bytesRead + chunk.length) = buffer.take bytesRead ++ chunk := by
  have hwc : (writeChunk buffer bytesRead chunk).take (bytesRead + chunk.length)
      = buffer.take bytesRead ++ chunk := by
    unfold writeChunk
    refine List.take_left' ?_
    simp only [List.length_append, List.length_take]
    omega
  unfold growIfFull
  split
  · rename_i hfull
    rw [List.take_append_of_le_length (Nat.le_of_eq hfull)]
    exact hwc
  · exact hwc

theorem length_growIfFull_writeChunk (buffer chunk : List Nat) (bytesRead : Nat)
    (h : bytesRead + chunk.length ≤ buffer.length) :
    (growIfFull (writeChunk buffer bytesRead chunk) (bytesRead + chunk.length)).length
      = if bytesRead + chunk.length = buffer.length
        then buffer.length + DEFAULT_READ_BUFFER_LEN else buffer.length := by
  have hl := length_writeChunk buffer chunk bytesRead h
  unfold growIfFull
  split <;> rename_i hc <;> rw [hl] at hc
  · rw [if_pos hc]
    simp [hl]
  · rw [if_neg hc]
    exact hl

theorem readLoop_drain (body : List ReadResult) :
    ∀ (fuel : Nat) (buffer : List Nat) (bytesRead : Nat),
    cleanBody body = true →
    scriptFits body (buffer.length - bytesRead) = true →
    bytesRead ≤ buffer.length →
    body.length < fuel →
    readLoop fuel true (body ++ [ReadResult.wouldBlock]) buffer bytesRead
      = some ([buffer.take bytesRead ++ (okChunks body).flatten], true, []) := by
  induction body with
  | nil =>
    intro fuel buffer bytesRead _ _ _ hfuel
    match fuel, hfuel with
    | f + 1, _ => simp [readLoop, okChunks]
  | cons r rest ih =>
    intro fuel buffer bytesRead hclean hfits hle hfuel
    match fuel, hfuel with
    | f + 1, hfuel =>
      have hflt : rest.length < f := by
        simp only [List.length_cons] at hfuel
        omega
      match r with
      | ReadResult.ok chunk =>
        simp only [cleanBody, Bool.and_eq_true, Bool.not_eq_true'] at hclean
        obtain ⟨hch, hcrest⟩ := hclean
        simp only [scriptFits, Bool.and_eq_true, decide_eq_true_eq] at hfits
        obtain ⟨hfit, hfrest⟩ := hfits
        match chunk, hch with
        | c :: cs, _ =>
          have hle2 : bytesRead + (c :: cs).length ≤ buffer.length := by omega
          have hstep : readLoop (f + 1) true
              ((ReadResult.ok (c :: cs) :: rest) ++ [ReadResult.wouldBlock]) buffer bytesRead
              = readLoop f true (rest ++ [ReadResult.wouldBlock])
                  (growIfFull (writeChunk buffer bytesRead (c :: cs))
                    (bytesRead + (c :: cs).length))
                  (bytesRead + (c :: cs).length) := by
            simp only [List.cons_append, readLoop]
          have hcap := length_growIfFull_writeChunk buffer (c :: cs) bytesRead hle2
          have hfits2 : scriptFits rest
              ((growIfFull (writeChunk buffer bytesRead (c :: cs))
                  (bytesRead + (c :: cs).length)).length - (bytesRead + (c :: cs).length))
              = true := by
            by_cases hfull : bytesRead + (c :: cs).length = buffer.length
            · rw [hcap, if_pos hfull]
              have hcond : (c :: cs).length = buffer.length - bytesRead := by omega
              rw [if_pos hcond] at hfrest
              have hv : buffer.length + DEFAULT_READ_BUFFER_LEN
                  - (bytesRead + (c :: cs).length) = DEFAULT_READ_BUFFER_LEN := by omega
              rw [hv]
              exact hfrest
            · rw [hcap, if_neg hfull]
              have hcond : ¬((c :: cs).length = buffer.length - bytesRead) := by omega
              rw [if_neg hcond] at hfrest
              have hv : buffer.length - (bytesRead + (c :: cs).length)
                  = buffer.length - bytesRead - (c :: cs).length := by omega
              rw [hv]
              exact hfrest
          have hle3 : bytesRead + (c :: cs).length
              ≤ (growIfFull (writeChunk buffer bytesRead (c :: cs))
                  (bytesRead + (c :: cs).length)).length := by
            rw [hcap]
            split <;> omega
          rw [hstep, ih f _ _ hcrest hfits2 hle3 hflt,
            take_writeChunk_grow buffer (c :: cs) bytesRead hle hle2]
          simp only [okChunks, List.flatten_cons, List.append_assoc]
      | ReadResult.wouldBlock =>
        simp [cleanBody] at hclean
      | ReadResult.interrupted =>
        simp only [cleanBody] at hclean
        simp only [scriptFits] at hfits
        have hstep : readLoop (f + 1) true
            ((ReadResult.interrupted :: rest) ++ [ReadResult.wouldBlock]) buffer bytesRead
            = readLoop f true (rest ++ [ReadResult.wouldBlock]) buffer bytesRead := by
          simp only [List.cons_append, readLoop]
        rw [hstep, ih f buffer bytesRead hclean hfits hle hflt]
        simp only [okChunks]
      | ReadResult.err =>
        simp only [cleanBody] at hclean
        simp only [scriptFits] at hfits
        have hstep : readLoop (f + 1) true
            ((ReadResult.err :: rest) ++ [ReadResult.wouldBlock]) buffer bytesRead
            = readLoop f true (rest ++ [ReadResult.wouldBlock]) buffer bytesRead := by
          simp only [List.cons_append, readLoop]
        rw [hstep, ih f buffer bytesRead hclean hfits hle hflt]
        simp only [okChunks]

/-- C6: for every sequence of data chunks a device delivers during one drain
cycle that ends in would-block — in any number of chunks of any sizes that
fit the slices handed to the OS, with interruptions and soft errors
interleaved — the emitted read record is exactly the concatenation of the
chunks in order: no duplication, no loss, no padding bytes, regardless of
where chunk boundaries fall relative to the buffer growth increment. -/
theorem read_completeness (fuel : Nat) (body : List ReadResult)
    (hclean : cleanBody body = true)
    (hfits : scriptFits body DEFAULT_READ_BUFFER_LEN = true)
    (hfuel : body.length < fuel) :
    readCycle fuel true (body ++ [ReadResult.wouldBlock])
      = some ([(okChunks body).flatten], true, []) := by
  have h := readLoop_drain body fuel (List.replicate DEFAULT_READ_BUFFER_LEN 0) 0 hclean
    (by simpa using hfits) (Nat.zero_le _) hfuel
  simpa using h

theorem read_completeness_witness :
    readCycle 4 true
        ([ReadResult.ok [1, 2], ReadResult.interrupted, ReadResult.ok [3]]
          ++ [ReadResult.wouldBlock])
      = some ([[1, 2, 3]], true, []) :=
  read_completeness 4 [ReadResult.ok [1, 2], ReadResult.interrupted, ReadResult.ok [3]]
    (by decide) (by decide) (by decide)

/-- C7: the drain buffer starts with capacity `DEFAULT_READ_BUFFER_LEN = 2048`
bytes; after a successful read the capacity grows by exactly
`DEFAULT_READ_BUFFER_LEN` precisely when the chunk made the buffer's tail
full, and the continue-arms for `Interrupted` and soft errors leave the
buffer untouched (the would-block and end-of-stream arms stop the loop
without resizing). -/
theorem read_buffer_growth :
    DEFAULT_READ_BUFFER_LEN = 2048
    ∧ (∀ fuel connected script, readCycle fuel connected script
        = readLoop fuel connected script (List.replicate 2048 0) 0)
    ∧ (∀ buffer chunk bytesRead, bytesRead + List.length chunk ≤ List.length buffer →
        (growIfFull (writeChunk buffer bytesRead chunk) (bytesRead + chunk.length)).length
          = if bytesRead + chunk.length = buffer.length
            then buffer.length + DEFAULT_READ_BUFFER_LEN else buffer.length)
    ∧ (∀ fuel rest buffer bytesRead,
        readLoop (fuel + 1) true (ReadResult.interrupted :: rest) buffer bytesRead
          = readLoop fuel true rest buffer bytesRead)
    ∧ (∀ fuel rest buffer bytesRead,
        readLoop (fuel + 1) true (ReadResult.err :: rest) buffer bytesRead
          = readLoop fuel true rest buffer bytesRead) :=
  ⟨rfl, fun _ _ _ => rfl,
    fun buffer chunk bytesRead h => length_growIfFull_writeChunk buffer chunk bytesRead h,
    fun _ _ _ _ => by simp only [readLoop],
    fun _ _ _ _ => by simp only [readLoop]⟩

theorem read_buffer_growth_witness :
    (growIfFull (writeChunk [0, 0] 1 [5]) 2).length
      = if (2 : Nat) = 2 then 2 + DEFAULT_READ_BUFFER_LEN else 2 :=
  read_buffer_growth.2.2.1 [0, 0] [5] 1 (by decide)

theorem writeLoop_preserves_connected (fuel : Nat) :
    ∀ (conn : Bool) (script : List WriteResult) (payload : List Nat) (bytesWrote : Nat)
    (delivered : List Nat) (out : List Nat × Bool × List WriteResult),
    writeLoop fuel conn script payload bytesWrote delivered = some out → out.2.1 = conn := by
  induction fuel with
  | zero =>
    intro conn script payload bw d out h
    simp [writeLoop] at h
  | succ f ih =>
    intro conn script payload bw d out h
    match conn, script with
    | true, [] => simp [writeLoop] at h
    | true, WriteResult.ok n :: rest =>
      simp only [writeLoop] at h
      split at h
      · split at h
        · obtain rfl := Option.some.inj h
          rfl
        · exact ih true rest payload _ _ out h
      · split at h
        · obtain rfl := Option.some.inj h
          rfl
        · exact ih true rest payload _ _ out h
    | true, WriteResult.wouldBlock :: rest =>
      simp only [writeLoop] at h
      split at h
      · obtain rfl := Option.some.inj h
        rfl
      · exact ih true rest payload _ _ out h
    | true, WriteResult.interrupted :: rest =>
      simp only [writeLoop] at h
      split at h
      · obtain rfl := Option.some.inj h
        rfl
      · exact ih true rest payload _ _ out h
    | true, WriteResult.err :: rest =>
      simp only [writeLoop] at h
      split at h
      · obtain rfl := Option.some.inj h
        rfl
      · exact ih true rest payload _ _ out h
    | false, s =>
      simp only [writeLoop] at h
      split at h
      · obtain rfl := Option.some.inj h
        rfl
      · exact ih false s payload _ _ out h

theorem readLoop_closes_only_on_eos (fuel : Nat) :
    ∀ (script : List ReadResult) (buffer : List Nat) (bytesRead : Nat)
    (records : List (List Nat)) (conn : Bool) (leftover : List ReadResult),
    readLoop fuel true script buffer bytesRead = some (records, conn, leftover) →
    conn = false → records = [] ∧ ReadResult.ok [] ∈ script := by
  induction fuel with
  | zero =>
    intro script buffer bytesRead records conn leftover h _
    simp [readLoop] at h
  | succ f ih =>
    intro script buffer bytesRead records conn leftover h hconn
    match script with
    | [] => simp [readLoop] at h
    | ReadResult.ok chunk :: rest =>
      match chunk with
      | [] =>
        simp only [readLoop, Option.some.injEq, Prod.mk.injEq] at h
        exact ⟨h.1.symm, List.mem_cons_self _ _⟩
      | c :: cs =>
        simp only [readLoop] at h
        obtain ⟨hr, hm⟩ := ih _ _ _ _ _ _ h hconn
        exact ⟨hr, List.mem_cons_of_mem _ hm⟩
    | ReadResult.wouldBlock :: rest =>
      simp only [readLoop, Option.some.injEq, Prod.mk.injEq] at h
      rw [hconn] at h
      exact absurd h.2.1 (by simp)
    | ReadResult.interrupted :: rest =>
      simp only [readLoop] at h
      obtain ⟨hr, hm⟩ := ih _ _ _ _ _ _ h hconn
      exact ⟨hr, List.mem_cons_of_mem _ hm⟩
    | ReadResult.err :: rest =>
      simp only [readLoop] at h
      obtain ⟨hr, hm⟩ := ih _ _ _ _ _ _ h hconn
      exact ⟨hr, List.mem_cons_of_mem _ hm⟩

/-- C9: every port is stored with `connected = true` at construction;
`write_serial` never changes the flag (its loop only reads it); starting
from a connected port, the drain loop ends with `connected = false` only
when the device script contains a zero-length read (end-of-stream), and
then no record is emitted; and a port observed disconnected is never set
back to connected — its drain loop does not even terminate — so the
transition to Closed is irreversible. -/
theorem connected_lifecycle :
    (∀ settings : List SerialSetting, ∀ p ∈ (SerialPlugin.build settings).serials,
      p.connected = true)
    ∧ (∀ fuel conn script payload bytesWrote delivered
        (out : List Nat × Bool × List WriteResult),
        writeLoop fuel conn script payload bytesWrote delivered = some out → out.2.1 = conn)
    ∧ (∀ fuel script buffer bytesRead records conn leftover,
        readLoop fuel true script buffer bytesRead = some (records, conn, leftover) →
        conn = false → records = [] ∧ ReadResult.ok [] ∈ script)
    ∧ (∀ fuel script, readCycle fuel false script = none) := by
  refine ⟨?_, writeLoop_preserves_connected, readLoop_closes_only_on_eos, ?_⟩
  · intro settings p hp
    simp only [SerialPlugin.build, List.mem_map] at hp
    obtain ⟨s, _, rfl⟩ := hp
    rfl
  · intro fuel script
    exact readLoop_not_connected fuel script (List.replicate DEFAULT_READ_BUFFER_LEN 0) 0

theorem connected_lifecycle_witness :
    (([], true, []) : List Nat × Bool × List WriteResult).2.1 = true :=
  connected_lifecycle.2.1 1 true [WriteResult.ok 0] [] 0 [] ([], true, []) (by decide)

theorem mapGet_cons (a : String × Nat) (m : List (String × Nat)) (k : String) :
    mapGet (a :: m) k = if a.1 = k then some a.2 else mapGet m k := by
  by_cases h : a.1 = k
  · simp [mapGet, List.find?, h]
  · simp [mapGet, List.find?, h]

theorem mapInsert_cons (a : String × Nat) (m : List (String × Nat)) (k : String) (v : Nat) :
    mapInsert (a :: m) k v
      = if a.1 = k then mapInsert m k v else a :: mapInsert m k v := by
  by_cases h : a.1 = k
  · simp [mapInsert, List.filter_cons, h]
  · simp [mapInsert, List.filter_cons, h]

theorem mapGet_mapInsert (m : List (String × Nat)) (k : String) (v : Nat) (k' : String) :
    mapGet (mapInsert m k v) k' = if k' = k then some v else mapGet m k' := by
  induction m with
  | nil =>
    show mapGet [(k, v)] k' = _
    rw [mapGet_cons]
    by_cases h : k' = k
    · rw [if_pos h.symm, if_pos h]
    · rw [if_neg (fun hh => h hh.symm), if_neg h]
  | cons a m ih =>
    rw [mapInsert_cons]
    by_cases ha : a.1 = k
    · rw [if_pos ha, ih]
      by_cases h : k' = k
      · rw [if_pos h, if_pos h]
      · rw [if_neg h, if_neg h, mapGet_cons,
          if_neg (fun hh => h (ha ▸ hh).symm)]
    · rw [if_neg ha, mapGet_cons]
      by_cases hak : a.1 = k'
      · have hk : k' ≠ k := fun hh => ha (hak.trans hh)
        rw [if_pos hak, if_neg hk, mapGet_cons, if_pos hak]
      · rw [if_neg hak, ih]
        by_cases h : k' = k
        · rw [if_pos h, if_pos h]
        · rw [if_neg h, if_neg h, mapGet_cons, if_neg hak]

theorem mapGet_buildIndicesFrom (settings : List SerialSetting) :
    ∀ (i : Nat) (acc : List (String × Nat)) (l : String),
    mapGet (buildIndicesFrom settings i acc) l
      = match lastLabelIndex l settings i with
        | some v => some v
        | none => mapGet acc l := by
  induction settings with
  | nil => intro i acc l; rfl
  | cons s rest ih =>
    intro i acc l
    show mapGet (buildIndicesFrom rest (i + 1) (mapInsert acc (effectiveLabel s) i)) l = _
    rw [ih]
    cases hrest : lastLabelIndex l rest (i + 1) with
    | some v => simp [lastLabelIndex, hrest]
    | none =>
      simp only [lastLabelIndex, hrest]
      rw [mapGet_mapInsert]
      by_cases h : l = effectiveLabel s
      · rw [if_pos h, if_pos h.symm]
      · rw [if_neg h, if_neg (fun hh => h hh.symm)]

theorem lastLabelIndex_none (l : String) :
    ∀ (settings : List SerialSetting) (i : Nat),
    lastLabelIndex l settings i = none →
    ∀ (j : Nat) (s : SerialSetting), settings.get? j = some s → effectiveLabel s ≠ l := by
  intro settings
  induction settings with
  | nil =>
    intro i _ j s hj
    simp at hj
  | cons a rest ih =>
    intro i h j s hj
    simp only [lastLabelIndex] at h
    cases hrest : lastLabelIndex l rest (i + 1) with
    | some v => simp [hrest] at h
    | none =>
      simp only [hrest] at h
      have ha : effectiveLabel a ≠ l := by
        intro he
        simp [he] at h
      cases j with
      | zero =>
        simp only [List.get?] at hj
        obtain rfl := Option.some.inj hj
        exact ha
      | succ j' => exact ih (i + 1) hrest j' s (by simpa using hj)

theorem lastLabelIndex_spec (l : String) :
    ∀ (settings : List SerialSetting) (i v : Nat),
    lastLabelIndex l settings i = some v →
    i ≤ v ∧ v - i < settings.length
      ∧ (∃ s, settings.get? (v - i) = some s ∧ effectiveLabel s = l)
      ∧ (∀ (j : Nat) (s' : SerialSetting), settings.get? j = some s' →
          effectiveLabel s' = l → j ≤ v - i) := by
  intro settings
  induction settings with
  | nil =>
    intro i v h
    simp [lastLabelIndex] at h
  | cons a rest ih =>
    intro i v h
    simp only [lastLabelIndex] at h
    cases hrest : lastLabelIndex l rest (i + 1) with
    | some w =>
      simp only [hrest] at h
      obtain rfl := Option.some.inj h
      obtain ⟨h1, h2, ⟨t, ht, htl⟩, hmax⟩ := ih (i + 1) w hrest
      refine ⟨by omega, ?_, ⟨t, ?_, htl⟩, ?_⟩
      · simp only [List.length_cons]
        omega
      · have hvi : w - i = (w - (i + 1)) + 1 := by omega
        rw [hvi, List.get?_cons_succ]
        exact ht
      · intro j s' hj hl'
        cases j with
        | zero => omega
        | succ j' =>
          have := hmax j' s' (by simpa using hj) hl'
          omega
    | none =>
      simp only [hrest] at h
      by_cases he : effectiveLabel a = l
      · rw [if_pos he] at h
        obtain rfl := Option.some.inj h
        refine ⟨Nat.le_refl _, ?_, ⟨a, ?_, he⟩, ?_⟩
        · simp only [Nat.sub_self, List.length_cons]
          omega
        · simp [Nat.sub_self]
        · intro j s' hj hl'
          cases j with
          | zero => omega
          | succ j' =>
            exact absurd hl' (lastLabelIndex_none l rest (i + 1) hrest j' s' (by simpa using hj))
      · rw [if_neg he] at h
        exact absurd h (by simp)

theorem lastLabelIndex_of_mem (l : String) :
    ∀ (settings : List SerialSetting) (i : Nat) (s : SerialSetting),
    s ∈ settings → effectiveLabel s = l →
    ∃ v, lastLabelIndex l settings i = some v := by
  intro settings
  induction settings with
  | nil =>
    intro i s hs _
    exact absurd hs (List.not_mem_nil s)
  | cons a rest ih =>
    intro i s hs hl
    simp only [lastLabelIndex]
    cases hrest : lastLabelIndex l rest (i + 1) with
    | some w => exact ⟨w, rfl⟩
    | none =>
      rcases List.mem_cons.mp hs with rfl | hmem
      · exact ⟨i, by rw [if_pos hl]⟩
      · obtain ⟨w, hw⟩ := ih (i + 1) s hmem hl
        rw [hw] at hrest
        simp at hrest

/-- C8 amended: after initialization from any ordered sequence of settings,
the registered poll tokens are exactly `0..N` in order (unique and dense,
equal to the settings index); every label stored in the table resolves to a
valid index whose setting bears that label, and in fact to the **largest**
such index: when two settings produce the same effective label, the later
`HashMap::insert` overwrites the earlier binding, so only the later Port
remains addressable by that label (the earlier Port keeps its token but can
no longer be reached by label).  Every setting's effective label does
resolve to something. -/
theorem label_table_invariants (settings : List SerialSetting) :
    (SerialPlugin.build settings).tokens = List.range settings.length
    ∧ ((SerialPlugin.build settings).tokens).Nodup
    ∧ (∀ (l : String) (i : Nat), mapGet (SerialPlugin.build settings).indices l = some i →
        i < settings.length
          ∧ (∃ s, settings.get? i = some s ∧ effectiveLabel s = l)
          ∧ (∀ (j : Nat) (s' : SerialSetting), settings.get? j = some s' →
              effectiveLabel s' = l → j ≤ i))
    ∧ (∀ s ∈ settings,
        ∃ i, mapGet (SerialPlugin.build settings).indices (effectiveLabel s) = some i) := by
  have htok : (SerialPlugin.build settings).tokens = List.range settings.length := by
    simp [SerialPlugin.build]
  refine ⟨htok, by rw [htok]; exact List.nodup_range _, ?_, ?_⟩
  · intro l i h
    have hb : mapGet (SerialPlugin.build settings).indices l
        = match lastLabelIndex l settings 0 with
          | some v => some v
          | none => mapGet [] l := mapGet_buildIndicesFrom settings 0 [] l
    rw [hb] at h
    cases hll : lastLabelIndex l settings 0 with
    | none => simp [hll, mapGet, List.find?] at h
    | some v =>
      simp only [hll] at h
      obtain rfl := Option.some.inj h
      obtain ⟨_, h2, ⟨s, hs, hsl⟩, hmax⟩ := lastLabelIndex_spec l settings 0 v hll
      rw [Nat.sub_zero] at h2 hs
      refine ⟨h2, ⟨s, hs, hsl⟩, ?_⟩
      intro j s' hj hl'
      have := hmax j s' hj hl'
      omega
  · intro s hs
    obtain ⟨v, hv⟩ := lastLabelIndex_of_mem (effectiveLabel s) settings 0 s hs rfl
    refine ⟨v, ?_⟩
    have hb := mapGet_buildIndicesFrom settings 0 [] (effectiveLabel s)
    rw [hv] at hb
    exact hb

/-- C8 counterexample: two settings with the same label "a".  The built table
holds a single binding, mapping "a" to the later index 1: the earlier Port 0
is no longer addressable by any label, contradicting the claim that both
Ports remain addressable. -/
theorem duplicate_label_overwrites :
    (SerialPlugin.build dupSettings).indices = [("a", 1)]
      ∧ mapGet (SerialPlugin.build dupSettings).indices "a" = some 1 :=
  ⟨by decide, by decide⟩

theorem label_table_invariants_witness :
    ∃ i, mapGet (SerialPlugin.build dupSettings).indices
        (effectiveLabel ⟨some "a", "/dev/ttyUSB0", 115200, DataBits.eight, FlowControl.none,
          Parity.none, StopBits.one, 0⟩) = some i :=
  (label_table_invariants dupSettings).2.2.2
    ⟨some "a", "/dev/ttyUSB0", 115200, DataBits.eight, FlowControl.none, Parity.none,
      StopBits.one, 0⟩ (by decide)
